import Mathlib

/-!
# pokedex.boot.dev: the timed cache, the fetch helpers and the paging commands

A shallow embedding of `pokecache/pokecache.go` (the cache `Cache` with `NewCache`, `Add`,
`Get` and `reapLoop`), of `pokeapi.GetLocationAreaNames` and `pokeapi.GetPokemonsInArea`, and
of `getNamesPage`, `getPokemonsInArea`, `commandMap` and `commandMapB` of `pokedexcli/main.go`.

Conventions of the embedding.

* A Go `map[string]cacheEntry` is an association list without duplicate keys
  (`AList`); `m[k]` is `AList.lookup`, `m[k] = e` is `AList.insert` and `delete(m, k)` is
  `AList.erase`.
* `time.Time` values are integers (nanoseconds on one time line), `time.Duration` too.
  `time.Now()` is an explicit argument of the operation that reads the clock.
* Stateful methods pass the cache explicitly: a method returns the cache it leaves behind.
* The mutex is not part of the state: every method body runs as one atomic step.
* A Go `int` is a 64-bit two's-complement integer: arithmetic is wrapped by `wrapInt`.
* The platform is linux/amd64: `make` fails as `makeslice` does there, and the memory that
  the run-time system can still obtain is an explicit argument `mem`, in bytes.
-/

namespace Pokecache

/-- An instant (`time.Time`), in nanoseconds. -/
abbrev Time := Int

/-- A signed span of time (`time.Duration`), in nanoseconds. -/
abbrev Duration := Int

/-- The method `Time.Compare` of the Go standard library: `-1` when `t` is before `u`,
`+1` when `t` is after `u`, `0` when they are the same instant. -/
def Compare (t u : Time) : Int :=
  if t < u then -1 else if u < t then 1 else 0

/-- The struct `cacheEntry`. -/
structure cacheEntry where
  createdAt : Time
  val : List UInt8
deriving DecidableEq, Repr

/-- The Go type `map[string]cacheEntry`. -/
abbrev EntryMap := AList (fun _ : String => cacheEntry)

/-- The struct `Cache` (the mutex is left out, see the conventions above). -/
structure Cache where
  interval : Duration
  data : EntryMap

/-- The constructor `NewCache`: the given interval and an empty map. The reaper it starts is
`reapLoop`. -/
def NewCache (interval : Duration) : Cache :=
  { interval := interval, data := ∅ }

/-- The method `Cache.Add`, run at clock reading `now`: the entry is stored only when the key
has none. -/
def Cache.Add (c : Cache) (now : Time) (key : String) (val : List UInt8) : Cache :=
  match c.data.lookup key with
  | some _ => c
  | none => { c with data := c.data.insert key { createdAt := now, val := val } }

/-- The method `Cache.Get`: the returned pair, and the cache it leaves behind. -/
def Cache.Get (c : Cache) (key : String) : (List UInt8 × Bool) × Cache :=
  match c.data.lookup key with
  | some entry => ((entry.val, true), c)
  | none => (([], false), c)

/-- The inner loop of `reapLoop` over the entries `order` that the `range` produces: an entry
whose `createdAt` compares below the tick has its key deleted from the map. -/
def reapOver (tick : Time) (order : List (Sigma fun _ : String => cacheEntry))
    (d : EntryMap) : EntryMap :=
  order.foldl (fun m p => if Compare p.2.createdAt tick < 0 then m.erase p.1 else m) d

/-- One iteration of the outer loop of `reapLoop`, for the tick value `tick`: the sweep over
the whole map. -/
def Cache.reapSweep (c : Cache) (tick : Time) : Cache :=
  { c with data := reapOver tick c.data.entries c.data }

/-- The function `time.NewTicker` of the Go standard library, as far as `reapLoop` uses it:
it panics when the duration is not positive. -/
def NewTicker (d : Duration) : Except String Unit :=
  if d ≤ 0 then .error "non-positive interval for NewTicker" else .ok ()

/-- The method `Cache.reapLoop` on the ticks delivered so far: the ticker is created first,
then every tick runs one sweep. -/
def Cache.reapLoop (c : Cache) (ticks : List Time) : Except String Cache :=
  match NewTicker c.interval with
  | .error e => .error e
  | .ok _ => .ok (ticks.foldl Cache.reapSweep c)

/-- One atomic operation on the cache: a call of `Add` at a clock reading, a call of `Get`,
or one sweep of the reaper for a tick. -/
inductive Op where
  | add (now : Time) (key : String) (val : List UInt8)
  | get (key : String)
  | reap (tick : Time)
deriving DecidableEq, Repr

/-- The cache after one operation. -/
def Cache.step (c : Cache) : Op → Cache
  | .add now key val => c.Add now key val
  | .get key => (c.Get key).2
  | .reap tick => c.reapSweep tick

/-- The cache after a sequence of operations. -/
def Cache.runOps (c : Cache) (ops : List Op) : Cache :=
  ops.foldl Cache.step c

/-- An operation that is a call of `Add` or `Get`, not a sweep. -/
def Op.isCall : Op → Bool
  | .add _ _ _ => true
  | .get _ => true
  | .reap _ => false

end Pokecache

namespace Pokeapi

/-- The least value of a Go `int` (64 bits). -/
def minInt : Int := -(2 ^ 63)

/-- The greatest value of a Go `int` (64 bits). -/
def maxInt : Int := 2 ^ 63 - 1

/-- The value a Go `int` holds after an arithmetic operation whose exact result is `x`:
`x` wrapped into the 64-bit two's-complement range. -/
def wrapInt (x : Int) : Int := (x + 2 ^ 63) % 2 ^ 64 - 2 ^ 63

/-- The ways a call ends without returning: a run-time panic, the process exit of
`log.Fatal`, the fatal error of the run-time system when memory runs out, or (in the
embedding only) a loop that has used up its fuel. -/
inductive Abort where
  | goPanic (msg : String)
  | logFatal
  | outOfMemory
  | outOfFuel
deriving DecidableEq, Repr

/-- The bound `maxAlloc` of the Go run-time system on the bytes of one allocation, on
linux/amd64 (48 heap address bits). -/
def maxAlloc : Int := 2 ^ 48

/-- The size in bytes of one `string` value on a 64-bit platform (a pointer and a length). -/
def stringSize : Int := 16

/-- The call `make([]string, len)` when the run-time system can still obtain `mem` bytes:
`makeslice` panics when the length is negative or the bytes of the slice overflow or exceed
`maxAlloc`, the allocation is fatal when the memory at hand does not hold the slice, and
otherwise the slice has `len` empty strings. -/
def makeStrings (mem : Int) (len : Int) : Except Abort (List String) :=
  if len < 0 ∨ maxAlloc < stringSize * len then
    .error (.goPanic "makeslice: len out of range")
  else if mem < stringSize * len then .error .outOfMemory
  else .ok (List.replicate len.toNat "")

/-- The struct `LocationArea`, with the fields that the functions below read: `Name`, and of
each element of `PokemonEncounters` its `Pokemon.Name`. -/
structure LocationArea where
  ID : Int
  Name : String
  PokemonEncounters : List String
deriving DecidableEq, Repr

/-- What one request of `getLocationArea` meets: `http.Get` fails (the function calls
`log.Fatal`), the response is refused (status above 299, unreadable body or body that does
not parse: the function returns the struct as far as it is filled, and the error), or the
response parses to a location area. -/
inductive Response where
  | unreachable
  | refused (filled : LocationArea) (err : String)
  | area (a : LocationArea)
deriving DecidableEq, Repr

/-- The function `getLocationArea`, over the server `web` that answers each URL. -/
def getLocationArea (web : String → Response) (idOrName : String) :
    Except Abort (LocationArea × Option String) :=
  match web ("https://pokeapi.co/api/v2/location-area/" ++ idOrName ++ "/") with
  | .unreachable => .error .logFatal
  | .refused filled err => .ok (filled, some err)
  | .area a => .ok (a, none)

/-- The function `getLocationAreaName`: the name of the area with the decimal id `page`; an
error of `getLocationArea` gives the empty name and no error. -/
def getLocationAreaName (web : String → Response) (page : Int) :
    Except Abort (String × Option String) :=
  match getLocationArea web (toString page) with
  | .error a => .error a
  | .ok (_, some _) => .ok ("", none)
  | .ok (locationArea, none) => .ok (locationArea.Name, none)

/-- The `for` loop of `GetLocationAreaNames`, from the index `i` on, with the bound
`hi = offset+limit`: the slice `names` at the end of the loop and the error to return. One
unit of fuel pays one test of the loop condition. -/
def namesLoop (web : String → Response) (hi : Int) :
    Nat → Int → List String → Except Abort (List String × Option String)
  | 0, _, _ => .error .outOfFuel
  | fuel + 1, i, names =>
    if i ≤ hi then
      match getLocationAreaName web i with
      | .error a => .error a
      | .ok (_, some err) => .ok (names, some err)
      | .ok (newName, none) =>
        if 0 ≤ i ∧ i < names.length then
          namesLoop web hi fuel (wrapInt (i + 1)) (names.set i.toNat newName)
        else .error (.goPanic "index out of range")
    else .ok (names, none)

/-- The slice expression `s[lo:hi]` on a slice whose capacity is its length, as `make` with
one size builds it: a panic unless `0 ≤ lo ≤ hi ≤ len(s)`. -/
def sliceRange (s : List String) (lo hi : Int) : Except Abort (List String) :=
  if 0 ≤ lo ∧ lo ≤ hi ∧ hi ≤ s.length then .ok ((s.drop lo.toNat).take (hi - lo).toNat)
  else .error (.goPanic "slice bounds out of range")

/-- The function `GetLocationAreaNames`, when the run-time system can still obtain `mem`
bytes: `make` builds the slice of `offset+limit+1` strings, the loop fills it, and the part
`names[offset : offset+limit]` is returned with the error of the loop. -/
def GetLocationAreaNames (web : String → Response) (mem : Int) (fuel : Nat)
    (limit offset : Int) : Except Abort (List String × Option String) :=
  match makeStrings mem (wrapInt (wrapInt (offset + limit) + 1)) with
  | .error a => .error a
  | .ok made =>
    match namesLoop web (wrapInt (offset + limit)) fuel offset made with
    | .error a => .error a
    | .ok (names, err) =>
      match sliceRange names offset (wrapInt (offset + limit)) with
      | .error a => .error a
      | .ok part => .ok (part, err)

/-- A server that answers every request with an area, named after the requested URL. -/
def echoWeb : String → Response :=
  fun url => .area { ID := 0, Name := url, PokemonEncounters := [] }

/-- The function `GetPokemonsInArea`: the names of the Pokemon met in the area `name`, in the
order of `PokemonEncounters`; an error of `getLocationArea` is returned with no names. -/
def GetPokemonsInArea (web : String → Response) (name : String) :
    Except Abort (List String × Option String) :=
  match getLocationArea web name with
  | .error a => .error a
  | .ok (_, some err) => .ok ([], some err)
  | .ok (locationArea, none) =>
    .ok (locationArea.PokemonEncounters.foldl (fun pokemonNames n => pokemonNames ++ [n]) [],
      none)

end Pokeapi

namespace Pokedexcli

open Pokecache Pokeapi

/-- The struct `config`: the paging state of the `map` and `mapb` commands. -/
structure config where
  Next : Int
  Previous : Int
deriving DecidableEq, Repr

/-- The conversion `[]byte(s)` of a string: its UTF-8 bytes. -/
def bytesOf (s : String) : List UInt8 :=
  s.data.flatMap String.utf8EncodeChar

/-- The call `fmt.Sprint(b)` with one operand of type `[]byte`: the bytes as decimal numbers
separated by blanks, between square brackets. -/
def Sprint (b : List UInt8) : String :=
  "[" ++ String.intercalate " " (b.map fun x => toString x.toNat) ++ "]"

/-- The loop of `getNamesPage` and of `getPokemonsInArea` that builds `namesLine`: every name
followed by a line feed. -/
def namesLine (names : List String) : String :=
  names.foldl (fun line name => line ++ (name ++ "\n")) ""

/-- The function `getNamesPage`, with the clock reading `now` for the `Add` of the miss
path: the returned string and error, and the cache it leaves behind. -/
def getNamesPage (web : String → Response) (mem : Int) (fuel : Nat) (now : Time)
    (offset : Int) (cache : Cache) : Except Abort ((String × Option String) × Cache) :=
  let cacheKey := "page" ++ toString offset ++ "-" ++ toString (wrapInt (offset + 20))
  match cache.Get cacheKey with
  | ((cached, true), cache1) => .ok ((Sprint cached, none), cache1)
  | ((_, false), cache1) =>
    match GetLocationAreaNames web mem fuel 20 offset with
    | .error a => .error a
    | .ok (_, some err) => .ok (("", some err), cache1)
    | .ok (names, none) =>
      .ok ((namesLine names, none), cache1.Add now cacheKey (bytesOf (namesLine names)))

/-- The function `getPokemonsInArea`, with the clock reading `now` for the `Add` of the miss
path: the returned string and error, and the cache it leaves behind. -/
def getPokemonsInArea (web : String → Response) (now : Time) (locationName : String)
    (cache : Cache) : Except Abort ((String × Option String) × Cache) :=
  let cacheKey := "pokemonsInArea_" ++ locationName
  match cache.Get cacheKey with
  | ((cached, true), cache1) => .ok ((Sprint cached, none), cache1)
  | ((_, false), cache1) =>
    match GetPokemonsInArea web locationName with
    | .error a => .error a
    | .ok (_, some err) => .ok (("", some err), cache1)
    | .ok (names, none) =>
      .ok ((namesLine names, none), cache1.Add now cacheKey (bytesOf (namesLine names)))

/-- What a command leaves behind: the config, the cache, the text it printed, and the offset
it passed to `getNamesPage` (`none` when it did not call it). -/
structure Outcome where
  conf : config
  cache : Cache
  printed : String
  asked : Option Int

/-- The function `commandMap`: the page after `conf.Next`; the config moves on only when
`getNamesPage` returns no error. -/
def commandMap (web : String → Response) (mem : Int) (fuel : Nat) (now : Time)
    (conf : config) (cache : Cache) : Except Abort Outcome :=
  let offset := wrapInt (conf.Next + 1)
  match getNamesPage web mem fuel now offset cache with
  | .error a => .error a
  | .ok ((toPrint, none), cache1) =>
    .ok { conf := { Previous := conf.Next, Next := wrapInt (conf.Next + 20) },
          cache := cache1, printed := toPrint, asked := some offset }
  | .ok ((_, some err), cache1) =>
    .ok { conf := conf, cache := cache1, printed := err, asked := some offset }

/-- The function `commandMapB`: nothing but a message when `conf.Previous` is zero, else the
page before `conf.Previous`; the config moves back only when `getNamesPage` returns no
error. -/
def commandMapB (web : String → Response) (mem : Int) (fuel : Nat) (now : Time)
    (conf : config) (cache : Cache) : Except Abort Outcome :=
  if conf.Previous = 0 then
    .ok { conf := conf, cache := cache, printed := "No previous\n", asked := none }
  else
    let offset := wrapInt (wrapInt (conf.Previous - 20) + 1)
    match getNamesPage web mem fuel now offset cache with
    | .error a => .error a
    | .ok ((toPrint, none), cache1) =>
      .ok { conf := { Next := conf.Previous, Previous := wrapInt (conf.Previous - 20) },
            cache := cache1, printed := toPrint, asked := some offset }
    | .ok ((_, some err), cache1) =>
      .ok { conf := conf, cache := cache1, printed := err, asked := some offset }

/-- A server that answers every request with an area named `a` where the Pokemon `abra`
is met. -/
def abraWeb : String → Response :=
  fun _ => .area { ID := 1, Name := "a", PokemonEncounters := ["abra"] }

/-- The text of a page of twenty areas on `abraWeb`. -/
def abraPage : String :=
  "a\na\na\na\na\na\na\na\na\na\na\na\na\na\na\na\na\na\na\na\n"

/-- The cache after `getNamesPage` has missed and stored `abraPage` at time `now` for the
page that starts at `offset`, on a cache that had no entry for it. -/
def cacheWithPage (cache : Cache) (now : Time) (offset : Int) : Cache :=
  cache.Add now ("page" ++ toString offset ++ "-" ++ toString (offset + 20)) (bytesOf abraPage)

end Pokedexcli

namespace Pokecache

/-! ## Lemmas on the map operations -/

theorem Compare_neg_iff (t u : Time) : Compare t u < 0 ↔ t < u := by
  unfold Compare
  split_ifs with h1 h2
  · simp [h1]
  · simp [h1]
  · simp [h1]

theorem Add_interval (c : Cache) (now : Time) (key : String) (val : List UInt8) :
    (c.Add now key val).interval = c.interval := by
  unfold Cache.Add
  split <;> rfl

theorem lookup_Add_self (c : Cache) (now : Time) (key : String) (val : List UInt8) :
    (c.Add now key val).data.lookup key
      = some ((c.data.lookup key).getD { createdAt := now, val := val }) := by
  unfold Cache.Add
  split
  · next e h => simp [h]
  · next h => simp [h]

theorem lookup_Add_ne (c : Cache) (now : Time) (key : String) (val : List UInt8)
    (k : String) (hk : k ≠ key) :
    (c.Add now key val).data.lookup k = c.data.lookup k := by
  unfold Cache.Add
  split
  · rfl
  · simp [AList.lookup_insert_ne hk]

theorem lookup_Add_of_some (c : Cache) (now : Time) (key : String) (val : List UInt8)
    (k : String) (e : cacheEntry) (h : c.data.lookup k = some e) :
    (c.Add now key val).data.lookup k = some e := by
  by_cases hk : k = key
  · subst hk
    rw [lookup_Add_self, h]
    rfl
  · rw [lookup_Add_ne c now key val k hk, h]

theorem Get_state (c : Cache) (key : String) : (c.Get key).2 = c := by
  unfold Cache.Get
  split <;> rfl

theorem Get_result (c : Cache) (key : String) :
    (c.Get key).1 = ((c.data.lookup key).elim ([], false) fun e => (e.val, true)) := by
  unfold Cache.Get
  split
  · next e h => simp [h]
  · next h => simp [h]

theorem runOps_nil (c : Cache) : c.runOps [] = c := rfl

theorem runOps_cons (c : Cache) (op : Op) (ops : List Op) :
    c.runOps (op :: ops) = (c.step op).runOps ops := rfl

theorem runOps_append (c : Cache) (ops₁ ops₂ : List Op) :
    c.runOps (ops₁ ++ ops₂) = (c.runOps ops₁).runOps ops₂ := by
  simp [Cache.runOps, List.foldl_append]

/-- A call of `Add` or `Get` keeps every entry that is there. -/
theorem lookup_step_call (c : Cache) (op : Op) (hop : op.isCall = true)
    (k : String) (e : cacheEntry) (h : c.data.lookup k = some e) :
    (c.step op).data.lookup k = some e := by
  cases op with
  | add now key val => exact lookup_Add_of_some c now key val k e h
  | get key => simpa [Cache.step, Get_state] using h
  | reap tick => simp [Op.isCall] at hop

/-- A sequence of calls of `Add` and `Get` keeps every entry that is there. -/
theorem lookup_runOps_calls (ops : List Op) (hops : ∀ op ∈ ops, op.isCall = true)
    (c : Cache) (k : String) (e : cacheEntry) (h : c.data.lookup k = some e) :
    (c.runOps ops).data.lookup k = some e := by
  induction ops generalizing c with
  | nil => exact h
  | cons op ops ih =>
    rw [runOps_cons]
    apply ih (fun o ho => hops o (List.mem_cons_of_mem _ ho))
    exact lookup_step_call c op (hops op (List.mem_cons_self _ _)) k e h

/-! ## Lemmas on the sweep -/

theorem reapOver_nil (tick : Time) (d : EntryMap) : reapOver tick [] d = d := rfl

theorem reapOver_cons (tick : Time) (p : Sigma fun _ : String => cacheEntry)
    (l : List (Sigma fun _ : String => cacheEntry)) (d : EntryMap) :
    reapOver tick (p :: l) d
      = reapOver tick l (if Compare p.2.createdAt tick < 0 then d.erase p.1 else d) := rfl

/-- The sweep adds no key. -/
theorem lookup_reapOver_none (tick : Time) (l : List (Sigma fun _ : String => cacheEntry))
    (d : EntryMap) (k : String) (h : d.lookup k = none) :
    (reapOver tick l d).lookup k = none := by
  induction l generalizing d with
  | nil => exact h
  | cons p l ih =>
    rw [reapOver_cons]
    apply ih
    split_ifs
    · by_cases hk : k = p.1
      · subst hk
        exact AList.lookup_erase _ _
      · rw [AList.lookup_erase_ne hk]
        exact h
    · exact h

/-- A key that no produced entry with an early `createdAt` carries is left alone. -/
theorem lookup_reapOver_keep (tick : Time) (l : List (Sigma fun _ : String => cacheEntry))
    (d : EntryMap) (k : String)
    (h : ∀ p ∈ l, p.1 = k → ¬ p.2.createdAt < tick) :
    (reapOver tick l d).lookup k = d.lookup k := by
  induction l generalizing d with
  | nil => rfl
  | cons p l ih =>
    rw [reapOver_cons, ih _ (fun q hq => h q (List.mem_cons_of_mem _ hq))]
    split_ifs with hc
    · have hne : k ≠ p.1 := by
        intro hk
        exact h p (List.mem_cons_self _ _) hk.symm ((Compare_neg_iff _ _).1 hc)
      exact AList.lookup_erase_ne hne
    · rfl

/-- A key that some produced entry with an early `createdAt` carries is deleted. -/
theorem lookup_reapOver_drop (tick : Time) (l : List (Sigma fun _ : String => cacheEntry))
    (d : EntryMap) (k : String)
    (h : ∃ p ∈ l, p.1 = k ∧ p.2.createdAt < tick) :
    (reapOver tick l d).lookup k = none := by
  induction l generalizing d with
  | nil => simp at h
  | cons p l ih =>
    rw [reapOver_cons]
    obtain ⟨q, hq, hk, hlt⟩ := h
    rcases List.mem_cons.1 hq with rfl | hq'
    · apply lookup_reapOver_none
      rw [if_pos ((Compare_neg_iff _ _).2 hlt), ← hk]
      exact AList.lookup_erase _ _
    · exact ih _ ⟨q, hq', hk, hlt⟩

/-- The entries of a map are the pairs that `lookup` finds. -/
theorem mem_entries_iff (d : EntryMap) (k : String) (e : cacheEntry) :
    (⟨k, e⟩ : Sigma fun _ : String => cacheEntry) ∈ d.entries ↔ d.lookup k = some e := by
  rw [← Option.mem_def]
  exact AList.mem_lookup_iff.symm

/-- The result of the inner loop when it runs over the entries of the map, in any order. -/
theorem lookup_reapOver_entries (tick : Time)
    (order : List (Sigma fun _ : String => cacheEntry)) (d : EntryMap)
    (horder : ∀ p, p ∈ order ↔ p ∈ d.entries) (k : String) :
    (reapOver tick order d).lookup k
      = (d.lookup k).filter (fun e => decide (tick ≤ e.createdAt)) := by
  cases hl : d.lookup k with
  | none => simpa using lookup_reapOver_none tick order d k hl
  | some e =>
    by_cases hlt : e.createdAt < tick
    · have hmem : (⟨k, e⟩ : Sigma fun _ : String => cacheEntry) ∈ order :=
        (horder _).2 ((mem_entries_iff d k e).2 hl)
      rw [lookup_reapOver_drop tick order d k ⟨⟨k, e⟩, hmem, rfl, hlt⟩]
      simp [Option.filter, not_le.2 hlt]
    · have hkeep : ∀ p ∈ order, p.1 = k → ¬ p.2.createdAt < tick := by
        rintro ⟨k₁, e₁⟩ hp hk
        simp only at hk
        subst hk
        have h₁ := (mem_entries_iff d k₁ e₁).1 ((horder _).1 hp)
        rw [hl] at h₁
        cases h₁
        exact hlt
      rw [lookup_reapOver_keep tick order d k hkeep, hl]
      simp [Option.filter, not_lt.1 hlt]

theorem lookup_reapSweep (c : Cache) (tick : Time) (k : String) :
    (c.reapSweep tick).data.lookup k
      = (c.data.lookup k).filter (fun e => decide (tick ≤ e.createdAt)) :=
  lookup_reapOver_entries tick c.data.entries c.data (fun _ => Iff.rfl) k

theorem reapSweep_interval (c : Cache) (tick : Time) :
    (c.reapSweep tick).interval = c.interval := rfl

/-- Every operation leaves the interval alone. -/
theorem step_interval (c : Cache) (op : Op) : (c.step op).interval = c.interval := by
  cases op with
  | add now key val => exact Add_interval c now key val
  | get key => simp [Cache.step, Get_state]
  | reap tick => rfl

/-- An entry found both before and after an operation is the same entry. -/
theorem step_entry_same (c : Cache) (op : Op) (k : String) (e e' : cacheEntry)
    (h : c.data.lookup k = some e) (h' : (c.step op).data.lookup k = some e') : e' = e := by
  cases op with
  | add now key val =>
    have := lookup_Add_of_some c now key val k e h
    simp only [Cache.step] at h'
    rw [this] at h'
    exact (Option.some.inj h').symm
  | get key =>
    simp only [Cache.step, Get_state] at h'
    rw [h] at h'
    exact (Option.some.inj h').symm
  | reap tick =>
    simp only [Cache.step, lookup_reapSweep, h] at h'
    by_cases ht : tick ≤ e.createdAt
    · simp [Option.filter, ht] at h'
      exact h'.symm
    · simp [Option.filter, ht] at h'

/-- The pair returned by `Get` after `Add`, further calls of `Add` and `Get`, and then `Get`:
the entry in place before the `Add` if there was one, the added value otherwise. -/
theorem Get_after_Add_calls (c : Cache) (now : Time) (k : String) (v : List UInt8)
    (ops : List Op) (hops : ∀ op ∈ ops, op.isCall = true) :
    (((c.Add now k v).runOps ops).Get k).1
      = (((c.data.lookup k).getD { createdAt := now, val := v }).val, true) := by
  have h := lookup_runOps_calls ops hops (c.Add now k v) k _ (lookup_Add_self c now k v)
  rw [Get_result, h]
  rfl

/-! ## The cache: claims C1 to C8 -/

/-- C1, as stated, fails: on the cache built by `NewCache` and `Add("x", "1")`, the call
`Add("x", "2")` followed by `Get("x")` returns `("1", true)`, which is not `("2", true)`. -/
theorem C1_counterexample :
    ((((NewCache 50).Add 0 "x" [49]).Add 1 "x" [50]).Get "x").1 = ([49], true)
      ∧ ((((NewCache 50).Add 0 "x" [49]).Add 1 "x" [50]).Get "x").1 ≠ ([50], true) := by
  decide

/-- C1, amended: for every cache state, key `k` and value `v`, after `Add(k, v)` and any
further calls of `Add` and `Get` (no sweep in between), `Get(k)` returns `(v, true)` when `k`
had no entry before the `Add`, and `(w, true)` when `k` had an entry with value `w`. -/
theorem C1_get_after_add (c : Cache) (now : Time) (k : String) (v : List UInt8)
    (ops : List Op) (hops : ∀ op ∈ ops, op.isCall = true) :
    (c.data.lookup k = none → (((c.Add now k v).runOps ops).Get k).1 = (v, true))
      ∧ (∀ e, c.data.lookup k = some e →
          (((c.Add now k v).runOps ops).Get k).1 = (e.val, true)) := by
  constructor
  · intro h
    rw [Get_after_Add_calls c now k v ops hops, h]
    rfl
  · intro e h
    rw [Get_after_Add_calls c now k v ops hops, h]
    rfl

/-- The amended C1 on the spec's scenario: `Add("a", "hello")` on a new cache, a `Get` of
another key, then `Get("a")`. -/
theorem C1_get_after_add_witness :
    (∀ op ∈ [Op.get "b"], op.isCall = true)
      ∧ (NewCache 50).data.lookup "a" = none
      ∧ ((((NewCache 50).Add 7 "a" [104, 101, 108, 108, 111]).runOps [Op.get "b"]).Get "a").1
          = ([104, 101, 108, 108, 111], true) :=
  ⟨by decide, by decide,
    (C1_get_after_add (NewCache 50) 7 "a" [104, 101, 108, 108, 111] [Op.get "b"]
      (by decide)).1 (by decide)⟩

/-- C2: when `k` has no entry, after `Add(k, v1)`, calls of `Add` and `Get`, `Add(k, v2)`
and again calls of `Add` and `Get` (no sweep anywhere in between), `Get(k)` returns
`(v1, true)`. -/
theorem C2_first_write_wins (c : Cache) (t1 t2 : Time) (k : String) (v1 v2 : List UInt8)
    (ops1 ops2 : List Op) (habs : c.data.lookup k = none)
    (h1 : ∀ op ∈ ops1, op.isCall = true) (h2 : ∀ op ∈ ops2, op.isCall = true) :
    (((((c.Add t1 k v1).runOps ops1).Add t2 k v2).runOps ops2).Get k).1 = (v1, true) := by
  have hk : ((c.Add t1 k v1).runOps ops1).data.lookup k
      = some { createdAt := t1, val := v1 } := by
    apply lookup_runOps_calls ops1 h1
    rw [lookup_Add_self, habs]
    rfl
  rw [Get_after_Add_calls _ t2 k v2 ops2 h2, hk]
  rfl

/-- The spec's scenario for C2: `Add("x", "1")`, `Add("x", "2")`, `Get("x")`. -/
theorem C2_first_write_wins_witness :
    (NewCache 50).data.lookup "x" = none
      ∧ ((((((NewCache 50).Add 0 "x" [49]).runOps []).Add 1 "x" [50]).runOps []).Get "x").1
          = ([49], true) :=
  ⟨by decide,
    C2_first_write_wins (NewCache 50) 0 1 "x" [49] [50] [] [] (by decide) (by decide)
      (by decide)⟩

/-- C3: `Add` on a key that has an entry returns the cache it was given, whatever the value
and the clock reading. -/
theorem C3_add_present_noop (c : Cache) (now : Time) (k : String) (v : List UInt8)
    (e : cacheEntry) (h : c.data.lookup k = some e) : c.Add now k v = c := by
  unfold Cache.Add
  rw [h]

/-- C3 on the cache that holds `"x"` with value `"1"` created at time 0. -/
theorem C3_add_present_noop_witness :
    ((NewCache 50).Add 0 "x" [49]).data.lookup "x" = some { createdAt := 0, val := [49] }
      ∧ ((NewCache 50).Add 0 "x" [49]).Add 9 "x" [50] = (NewCache 50).Add 0 "x" [49] :=
  ⟨by decide,
    C3_add_present_noop ((NewCache 50).Add 0 "x" [49]) 9 "x" [50]
      { createdAt := 0, val := [49] } (by decide)⟩

/-- C4: `Get` on a key without an entry returns a sequence of length 0 and `false`, in
particular on a cache just built by `NewCache`; `Get` on a key with an entry returns the
value of that entry and `true`. -/
theorem C4_get_spec (c : Cache) (interval : Duration) (k : String) :
    (c.data.lookup k = none →
        (c.Get k).1 = ([], false) ∧ (c.Get k).1.1.length = 0 ∧ (c.Get k).1.2 = false)
      ∧ ((NewCache interval).Get k).1 = ([], false)
      ∧ (∀ e, c.data.lookup k = some e → (c.Get k).1 = (e.val, true)) := by
  refine ⟨?_, ?_, ?_⟩
  · intro h
    simp [Get_result, h]
  · simp [Get_result, NewCache]
  · intro e h
    simp [Get_result, h]

/-- C4 on a cache with one entry: the key of the entry is found, another key is not. -/
theorem C4_get_spec_witness :
    ((NewCache 50).Add 0 "x" [49]).data.lookup "y" = none
      ∧ (((NewCache 50).Add 0 "x" [49]).Get "y").1 = ([], false)
      ∧ ((NewCache 50).Add 0 "x" [49]).data.lookup "x" = some { createdAt := 0, val := [49] }
      ∧ (((NewCache 50).Add 0 "x" [49]).Get "x").1 = ([49], true) :=
  ⟨by decide,
    ((C4_get_spec ((NewCache 50).Add 0 "x" [49]) 50 "y").1 (by decide)).1,
    by decide,
    (C4_get_spec ((NewCache 50).Add 0 "x" [49]) 50 "x").2.2
      { createdAt := 0, val := [49] } (by decide)⟩

/-- C5: one sweep with tick time `tick` leaves the interval alone and turns the map into its
restriction to the entries with `tick ≤ createdAt`: a key whose entry has `createdAt < tick`
has no entry afterwards, a key whose entry has `tick ≤ createdAt` keeps that very entry, and
a key without an entry has none afterwards. The same holds whatever the order in which the
`range` produces the entries. -/
theorem C5_reap_sweep_restricts (c : Cache) (tick : Time) (k : String)
    (order : List (Sigma fun _ : String => cacheEntry)) (horder : order.Perm c.data.entries) :
    (c.reapSweep tick).interval = c.interval
      ∧ (c.reapSweep tick).data.lookup k
          = (c.data.lookup k).filter (fun e => decide (tick ≤ e.createdAt))
      ∧ (reapOver tick order c.data).lookup k
          = (c.data.lookup k).filter (fun e => decide (tick ≤ e.createdAt)) :=
  ⟨rfl, lookup_reapSweep c tick k,
    lookup_reapOver_entries tick order c.data (fun _ => horder.mem_iff) k⟩

/-- C5 on a cache with `"x"` created at 0 and `"y"` created at 10, swept at tick 10 in the
order `"x"`, `"y"`: the entry of `"x"` goes and the entry of `"y"`, created at the tick time,
stays (Option.filter is evaluated by the last two components). -/
theorem C5_reap_sweep_restricts_witness :
    List.Perm [⟨"x", { createdAt := 0, val := [49] }⟩, ⟨"y", { createdAt := 10, val := [50] }⟩]
        (((NewCache 50).Add 0 "x" [49]).Add 10 "y" [50]).data.entries
      ∧ ((((NewCache 50).Add 0 "x" [49]).Add 10 "y" [50]).reapSweep 10).data.lookup "y"
          = ((((NewCache 50).Add 0 "x" [49]).Add 10 "y" [50]).data.lookup "y").filter
              (fun e => decide ((10 : Time) ≤ e.createdAt))
      ∧ ((((NewCache 50).Add 0 "x" [49]).Add 10 "y" [50]).reapSweep 10).data.lookup "x" = none
      ∧ ((((NewCache 50).Add 0 "x" [49]).Add 10 "y" [50]).reapSweep 10).data.lookup "y"
          = some { createdAt := 10, val := [50] } :=
  ⟨by decide,
    (C5_reap_sweep_restricts (((NewCache 50).Add 0 "x" [49]).Add 10 "y" [50]) 10 "y"
      [⟨"x", { createdAt := 0, val := [49] }⟩, ⟨"y", { createdAt := 10, val := [50] }⟩]
      (by decide)).2.1,
    by decide, by decide⟩

/-- C6: on a cache with a positive interval where `k` has no entry, after `Add(k, v)` at
clock time `t` and any further calls of `Add` and `Get`, `Get(k)` returns `(empty, false)`
after one sweep whose tick time is at or after `t + interval`, and returns `(v, true)`
after one sweep whose tick time is at or before `t`. -/
theorem C6_eviction_bound (c : Cache) (t tick : Time) (k : String) (v : List UInt8)
    (ops : List Op) (hI : 0 < c.interval) (habs : c.data.lookup k = none)
    (hops : ∀ op ∈ ops, op.isCall = true) (htick : t + c.interval ≤ tick) :
    ((((c.Add t k v).runOps ops).reapSweep tick).Get k).1 = ([], false)
      ∧ (∀ early : Time, early ≤ t →
          ((((c.Add t k v).runOps ops).reapSweep early).Get k).1 = (v, true)) := by
  have hk : ((c.Add t k v).runOps ops).data.lookup k = some { createdAt := t, val := v } := by
    apply lookup_runOps_calls ops hops
    rw [lookup_Add_self, habs]
    rfl
  constructor
  · have hlt : ¬ tick ≤ t := by
      intro hle
      have h1 : t + c.interval ≤ t := le_trans htick hle
      have h2 : c.interval ≤ 0 := by linarith
      exact absurd hI (not_lt.2 h2)
    rw [Get_result, lookup_reapSweep, hk]
    simp [Option.filter, hlt]
  · intro early hearly
    rw [Get_result, lookup_reapSweep, hk]
    simp [Option.filter, hearly]

/-- The spec's scenario for C6, in milliseconds: interval 50, `Add("a", "hello")` at time 7,
a `Get`, then the sweep of tick 57 removes the entry and the sweep of tick 6 would not. -/
theorem C6_eviction_bound_witness :
    0 < (NewCache 50).interval
      ∧ (NewCache 50).data.lookup "a" = none
      ∧ (∀ op ∈ [Op.get "a"], op.isCall = true)
      ∧ (7 : Time) + (NewCache 50).interval ≤ 57
      ∧ (((((NewCache 50).Add 7 "a" [104, 101, 108, 108, 111]).runOps [Op.get "a"]).reapSweep
            57).Get "a").1 = ([], false)
      ∧ (((((NewCache 50).Add 7 "a" [104, 101, 108, 108, 111]).runOps [Op.get "a"]).reapSweep
            6).Get "a").1 = ([104, 101, 108, 108, 111], true) :=
  ⟨by decide, by decide, by decide, by decide,
    (C6_eviction_bound (NewCache 50) 7 57 "a" [104, 101, 108, 108, 111] [Op.get "a"]
      (by decide) (by decide) (by decide) (by decide)).1,
    by decide⟩

/-- C7: `Get` returns the cache it was given; `Add(k, v)` leaves the interval alone, keeps
every entry that existed (same key, same value, same `createdAt`) and changes the lookup of
no key other than `k`; and across any operation (`Add`, `Get` or a sweep) the interval is
the same and a key with an entry both before and after carries the same entry. -/
theorem C7_only_reaper_removes (c : Cache) (now : Time) (k : String) (v : List UInt8) :
    (c.Get k).2 = c
      ∧ (c.Add now k v).interval = c.interval
      ∧ (∀ k1 e, c.data.lookup k1 = some e → (c.Add now k v).data.lookup k1 = some e)
      ∧ (∀ k1, k1 ≠ k → (c.Add now k v).data.lookup k1 = c.data.lookup k1)
      ∧ (∀ op : Op, (c.step op).interval = c.interval)
      ∧ (∀ (op : Op) k1 e e1, c.data.lookup k1 = some e →
          (c.step op).data.lookup k1 = some e1 → e1 = e) :=
  ⟨Get_state c k, Add_interval c now k v,
    fun k1 e h => lookup_Add_of_some c now k v k1 e h,
    fun k1 h => lookup_Add_ne c now k v k1 h,
    fun op => step_interval c op,
    fun op k1 e e1 h h1 => step_entry_same c op k1 e e1 h h1⟩

/-- C7 on a cache that holds `"x"`: a second `Add` for `"x"` and an `Add` for `"y"` both
leave the entry of `"x"` as it was. -/
theorem C7_only_reaper_removes_witness :
    ((NewCache 50).Add 0 "x" [49]).data.lookup "x" = some { createdAt := 0, val := [49] }
      ∧ (((NewCache 50).Add 0 "x" [49]).Add 5 "y" [50]).data.lookup "x"
          = some { createdAt := 0, val := [49] }
      ∧ (((NewCache 50).Add 0 "x" [49]).Get "y").2 = (NewCache 50).Add 0 "x" [49] :=
  ⟨by decide,
    (C7_only_reaper_removes ((NewCache 50).Add 0 "x" [49]) 5 "y" [50]).2.2.1 "x"
      { createdAt := 0, val := [49] } (by decide),
    (C7_only_reaper_removes ((NewCache 50).Add 0 "x" [49]) 5 "y" [50]).1⟩

/-- C8, as stated, fails: with interval zero, and with a negative interval, the reap cycle
started by `NewCache` panics in `time.NewTicker`. -/
theorem C8_counterexample :
    (NewCache 0).reapLoop [] = .error "non-positive interval for NewTicker"
      ∧ (NewCache (-1)).reapLoop [] = .error "non-positive interval for NewTicker" :=
  ⟨rfl, rfl⟩

/-- C8, amended: for every positive interval passed to `NewCache` and every sequence of ticks,
the reap cycle raises no panic and has run one sweep per tick; each operation `Add`, `Get`
and sweep yields a cache, on which the interval is still the one passed to `NewCache`. -/
theorem C8_no_error_positive_interval (interval : Duration) (hpos : 0 < interval)
    (ticks : List Time) (ops : List Op) :
    (NewCache interval).reapLoop ticks = .ok (ticks.foldl Cache.reapSweep (NewCache interval))
      ∧ ((NewCache interval).runOps ops).interval = interval := by
  constructor
  · have hn : ¬ interval ≤ 0 := not_le.2 hpos
    simp [Cache.reapLoop, NewTicker, NewCache, hn]
  · induction ops using List.reverseRecOn with
    | nil => rfl
    | append_singleton ops op ih =>
      rw [runOps_append, runOps_cons, runOps_nil, step_interval, ih]

/-- C8, amended, for the interval of 6000 ms that `main` passes: two ticks and a few calls. -/
theorem C8_no_error_positive_interval_witness :
    (0 : Duration) < 6000
      ∧ (NewCache 6000).reapLoop [6000, 12000]
          = .ok ([6000, 12000].foldl Cache.reapSweep (NewCache 6000))
      ∧ ((NewCache 6000).runOps [Op.add 1 "x" [49], Op.get "x", Op.reap 6000]).interval
          = 6000 :=
  ⟨by decide,
    C8_no_error_positive_interval 6000 (by decide) [6000, 12000]
      [Op.add 1 "x" [49], Op.get "x", Op.reap 6000]⟩

end Pokecache

namespace Pokeapi

/-! ## Lemmas on `GetLocationAreaNames` -/

/-- An exact result within the range of `int` is not changed by wrapping. -/
theorem wrapInt_of_range (x : Int) (hlo : minInt ≤ x) (hhi : x ≤ maxInt) : wrapInt x = x := by
  unfold wrapInt
  unfold minInt at hlo
  unfold maxInt at hhi
  omega

/-- The name fetched for an id whose request is answered with an area. -/
theorem getLocationAreaName_area (web : String → Response) (i : Int) (a : LocationArea)
    (h : web ("https://pokeapi.co/api/v2/location-area/" ++ toString i ++ "/") = .area a) :
    getLocationAreaName web i = .ok (a.Name, none) := by
  simp [getLocationAreaName, getLocationArea, h]

/-- The loop from index `i` on, when `r` indices are left, every fetch succeeds and no index
overflows: it ends without error, keeps the slots below `i` and fills the slots from `i` to
`hi` with the fetched names. -/
theorem namesLoop_spec (web : String → Response) (hi : Int) (nm : Int → String)
    (hhi : hi + 1 ≤ maxInt) :
    ∀ (r fuel : Nat) (i : Int) (names : List String), r < fuel → 0 ≤ i → i + r = hi + 1 →
      (names.length : Int) = hi + 1 →
      (∀ x, i ≤ x → x ≤ hi → getLocationAreaName web x = .ok (nm x, none)) →
      ∃ names1, namesLoop web hi fuel i names = .ok (names1, none)
        ∧ names1.length = names.length
        ∧ (∀ p : Nat, (p : Int) < i → names1[p]? = names[p]?)
        ∧ (∀ p : Nat, i ≤ (p : Int) → (p : Int) ≤ hi → names1[p]? = some (nm p)) := by
  intro r
  induction r with
  | zero =>
    intro fuel i names hf hi0 hir hlen hfetch
    obtain ⟨f, rfl⟩ : ∃ f, fuel = f + 1 := ⟨fuel - 1, by omega⟩
    refine ⟨names, ?_, rfl, fun _ _ => rfl, ?_⟩
    · have : ¬ i ≤ hi := by omega
      simp [namesLoop, this]
    · intro p h1 h2
      omega
  | succ r ih =>
    intro fuel i names hf hi0 hir hlen hfetch
    obtain ⟨f, rfl⟩ : ∃ f, fuel = f + 1 := ⟨fuel - 1, by omega⟩
    have hle : i ≤ hi := by omega
    have hb : 0 ≤ i ∧ i < (names.length : Int) := ⟨hi0, by omega⟩
    have hw : wrapInt (i + 1) = i + 1 := by
      apply wrapInt_of_range
      · unfold minInt; omega
      · omega
    obtain ⟨names1, hrun, hlen1, hlow, hhigh⟩ :=
      ih f (i + 1) (names.set i.toNat (nm i)) (by omega) (by omega) (by omega)
        (by simpa using hlen) (fun x h1 h2 => hfetch x (by omega) h2)
    refine ⟨names1, ?_, ?_, ?_, ?_⟩
    · rw [namesLoop, if_pos hle, hfetch i le_rfl hle]
      simp only [if_pos hb, hw]
      exact hrun
    · simpa using hlen1
    · intro p hp
      rw [hlow p (by omega)]
      apply List.getElem?_set_ne
      omega
    · intro p h1 h2
      by_cases hpi : (p : Int) = i
      · rw [hlow p (by omega), hpi]
        have : i.toNat = p := by omega
        rw [this, List.getElem?_set_self]
        omega
      · exact hhigh p (by omega) h2

/-- The slice that `make` builds when its bytes are within `maxAlloc` and within the memory
at hand. -/
theorem makeStrings_ok (mem len : Int) (hlen : 0 ≤ len)
    (halloc : stringSize * len ≤ maxAlloc) (hmem : stringSize * len ≤ mem) :
    makeStrings mem len = .ok (List.replicate len.toNat "") := by
  have h1 : ¬ (len < 0 ∨ maxAlloc < stringSize * len) := by
    rintro (h | h)
    · exact absurd hlen (not_le.2 h)
    · exact absurd halloc (not_le.2 h)
  have h2 : ¬ mem < stringSize * len := not_lt.2 hmem
  simp only [makeStrings, if_neg h1, if_neg h2]

/-- The result of `GetLocationAreaNames` when `make` can build the slice, the fuel covers
the `limit + 1` rounds of the loop and every fetch succeeds. -/
theorem GetLocationAreaNames_ok (web : String → Response) (area : Int → LocationArea)
    (mem : Int) (fuel : Nat) (limit offset : Int) (hlimit : 0 ≤ limit) (hoffset : 0 ≤ offset)
    (halloc : stringSize * (offset + limit + 1) ≤ maxAlloc)
    (hmem : stringSize * (offset + limit + 1) ≤ mem) (hfuel : limit + 2 ≤ (fuel : Int))
    (hweb : ∀ i : Int, offset ≤ i → i ≤ offset + limit →
      web ("https://pokeapi.co/api/v2/location-area/" ++ toString i ++ "/") = .area (area i)) :
    ∃ names, GetLocationAreaNames web mem fuel limit offset = .ok (names, none)
      ∧ (names.length : Int) = limit
      ∧ ∀ j : Nat, (j : Int) < limit → names[j]? = some (area (offset + j)).Name := by
  have hmax : maxInt = 2 ^ 63 - 1 := rfl
  have hmin : minInt = -(2 ^ 63) := rfl
  have hfit : offset + limit + 1 ≤ maxInt := by
    have h16 : stringSize = 16 := rfl
    have h48 : maxAlloc = 2 ^ 48 := rfl
    rw [h16, h48] at halloc
    omega
  have hw1 : wrapInt (offset + limit) = offset + limit :=
    wrapInt_of_range _ (by omega) (by omega)
  have hw2 : wrapInt (offset + limit + 1) = offset + limit + 1 :=
    wrapInt_of_range _ (by omega) (by omega)
  have hmake := makeStrings_ok mem (offset + limit + 1) (by omega) halloc hmem
  obtain ⟨names1, hrun, hlen1, -, hhigh⟩ :=
    namesLoop_spec web (offset + limit) (fun x => (area x).Name) hfit (limit.toNat + 1) fuel
      offset (List.replicate (offset + limit + 1).toNat "") (by omega) hoffset (by omega)
      (by simp; omega)
      (fun x h1 h2 => getLocationAreaName_area web x (area x) (hweb x h1 h2))
  have hlen : (names1.length : Int) = offset + limit + 1 := by
    rw [hlen1]
    simp
    omega
  refine ⟨(names1.drop offset.toNat).take (offset + limit - offset).toNat, ?_, ?_, ?_⟩
  · have hs : 0 ≤ offset ∧ offset ≤ offset + limit ∧ offset + limit ≤ (names1.length : Int) :=
      ⟨hoffset, by omega, by omega⟩
    simp only [GetLocationAreaNames, hw1, hw2, hmake, hrun, sliceRange, if_pos hs]
  · rw [List.length_take, List.length_drop]
    omega
  · intro j hj
    have hj1 : j < (offset + limit - offset).toNat := by omega
    rw [List.getElem?_take_of_lt hj1, List.getElem?_drop]
    have := hhigh (offset.toNat + j) (by omega) (by omega)
    rw [this]
    have hc : ((offset.toNat + j : Nat) : Int) = offset + j := by omega
    rw [hc]

/-! ## The fetch helper: claim C10 -/

/-- C10, as stated, fails, on a server where every fetch succeeds and whatever the memory and
the fuel. With `limit = 9223372036854775807` and `offset = 0` the length `offset+limit+1`
overflows to a negative `int` and `make` panics; with `limit = 4611686018427387904` (that is
`2 ^ 62`) and `offset = 0` nothing overflows, but the bytes of the slice exceed `maxAlloc`
and `make` panics. No names are returned. -/
theorem C10_counterexample :
    GetLocationAreaNames echoWeb 9223372036854775807 100 9223372036854775807 0
        = .error (.goPanic "makeslice: len out of range")
      ∧ (¬ ∃ mem fuel names err,
          GetLocationAreaNames echoWeb mem fuel 9223372036854775807 0 = .ok (names, err))
      ∧ GetLocationAreaNames echoWeb 9223372036854775807 100 4611686018427387904 0
          = .error (.goPanic "makeslice: len out of range")
      ∧ (¬ ∃ mem fuel names err,
          GetLocationAreaNames echoWeb mem fuel 4611686018427387904 0 = .ok (names, err)) := by
  refine ⟨rfl, ?_, rfl, ?_⟩
  · rintro ⟨mem, fuel, names, err, h⟩
    have hp : GetLocationAreaNames echoWeb mem fuel 9223372036854775807 0
        = .error (.goPanic "makeslice: len out of range") := rfl
    rw [hp] at h
    cases h
  · rintro ⟨mem, fuel, names, err, h⟩
    have hp : GetLocationAreaNames echoWeb mem fuel 4611686018427387904 0
        = .error (.goPanic "makeslice: len out of range") := rfl
    rw [hp] at h
    cases h

/-- C10, amended: for `limit ≥ 0` and `offset ≥ 0` such that `make` can build the slice of
`offset + limit + 1` strings (its `16 * (offset + limit + 1)` bytes are within `maxAlloc` and
within the memory at hand), with fuel for the `limit + 1` rounds of the loop, when every
fetch of an id from `offset` to `offset + limit` succeeds, `GetLocationAreaNames(limit, offset)`
returns exactly `limit` names and no error, and the `j`-th name is the name of the area with
id `offset + j`; with `limit = 20` and `offset = next + 1`, as `commandMap` computes it from
`conf.Next = next`, the names are those of the ids `next + 1` to `next + 20`. -/
theorem C10_location_area_names (web : String → Response) (area : Int → LocationArea)
    (mem : Int) (fuel : Nat) (limit offset : Int) (hlimit : 0 ≤ limit) (hoffset : 0 ≤ offset)
    (halloc : stringSize * (offset + limit + 1) ≤ maxAlloc)
    (hmem : stringSize * (offset + limit + 1) ≤ mem) (hfuel : limit + 2 ≤ (fuel : Int))
    (hweb : ∀ i : Int, offset ≤ i → i ≤ offset + limit →
      web ("https://pokeapi.co/api/v2/location-area/" ++ toString i ++ "/") = .area (area i)) :
    (∃ names, GetLocationAreaNames web mem fuel limit offset = .ok (names, none)
        ∧ (names.length : Int) = limit
        ∧ ∀ j : Nat, (j : Int) < limit → names[j]? = some (area (offset + j)).Name)
      ∧ (∀ next : Int, 0 ≤ next → next ≤ maxInt → limit = 20 → offset = wrapInt (next + 1) →
          ∃ names,
            GetLocationAreaNames web mem fuel 20 (wrapInt (next + 1)) = .ok (names, none)
            ∧ names.length = 20
            ∧ ∀ j : Nat, j < 20 → names[j]? = some (area (next + 1 + j)).Name) := by
  have hmain := GetLocationAreaNames_ok web area mem fuel limit offset hlimit hoffset halloc
    hmem hfuel hweb
  refine ⟨hmain, ?_⟩
  intro next hnext hmax hl ho
  have hw : wrapInt (next + 1) = next + 1 := by
    by_cases hlt : next + 1 ≤ maxInt
    · exact wrapInt_of_range _ (by unfold minInt; omega) hlt
    · have hn : next = 9223372036854775807 := by
        unfold maxInt at hmax hlt
        omega
      have hneg : wrapInt (next + 1) < 0 := by
        rw [hn]
        decide
      omega
  obtain ⟨names, hrun, hlen, hnames⟩ := hmain
  subst hl
  rw [hw] at ho ⊢
  subst ho
  exact ⟨names, hrun, by omega, fun j hj => hnames j (by omega)⟩

/-- C10, amended, on the first `map` command (`conf.Next = 0`, so `limit = 20` and
`offset = 1`), with 8 GiB of memory, on the server that names each area after its URL: 20
names come back, for the ids 1 to 20. -/
theorem C10_location_area_names_witness :
    (0 : Int) ≤ 20 ∧ (0 : Int) ≤ 1 ∧ stringSize * ((1 : Int) + 20 + 1) ≤ maxAlloc
      ∧ stringSize * ((1 : Int) + 20 + 1) ≤ 8589934592 ∧ (20 : Int) + 2 ≤ (22 : Nat)
      ∧ ∃ names, GetLocationAreaNames echoWeb 8589934592 22 20 1 = .ok (names, none)
          ∧ (names.length : Int) = 20
          ∧ ∀ j : Nat, (j : Int) < 20 → names[j]?
              = some ("https://pokeapi.co/api/v2/location-area/" ++ toString ((1 : Int) + j)
                  ++ "/") :=
  ⟨by decide, by decide, by decide, by decide, by decide,
    (C10_location_area_names echoWeb
      (fun i => { ID := 0,
                  Name := "https://pokeapi.co/api/v2/location-area/" ++ toString i ++ "/",
                  PokemonEncounters := [] })
      8589934592 22 20 1 (by decide) (by decide) (by decide) (by decide) (by decide)
      (fun _ _ _ => rfl)).1⟩

end Pokeapi

namespace Pokedexcli

open Pokecache Pokeapi

/-! ## Lemmas on the paging commands -/

/-- Twenty subtracted from a `Next` that is twenty above `Previous`, in `int` arithmetic. -/
theorem wrapInt_back (p : Int) (hlo : minInt ≤ p) (hhi : p ≤ maxInt) :
    wrapInt (wrapInt (p + 20) - 20) = p := by
  unfold minInt at hlo
  unfold maxInt at hhi
  unfold wrapInt
  omega

/-- The result of `commandMap` when its call of `getNamesPage` returns no error. -/
theorem commandMap_ok (web : String → Response) (mem : Int) (fuel : Nat) (now : Time)
    (conf : config) (cache cache1 : Cache) (toPrint : String)
    (h : getNamesPage web mem fuel now (wrapInt (conf.Next + 1)) cache
      = .ok ((toPrint, none), cache1)) :
    commandMap web mem fuel now conf cache
      = .ok { conf := { Previous := conf.Next, Next := wrapInt (conf.Next + 20) },
              cache := cache1, printed := toPrint,
              asked := some (wrapInt (conf.Next + 1)) } := by
  simp only [commandMap, h]

/-- The result of `commandMapB` when `Previous` is not zero and its call of `getNamesPage`
returns no error. -/
theorem commandMapB_ok (web : String → Response) (mem : Int) (fuel : Nat) (now : Time)
    (conf : config) (cache cache1 : Cache) (toPrint : String) (hprev : conf.Previous ≠ 0)
    (h : getNamesPage web mem fuel now (wrapInt (wrapInt (conf.Previous - 20) + 1)) cache
      = .ok ((toPrint, none), cache1)) :
    commandMapB web mem fuel now conf cache
      = .ok { conf := { Next := conf.Previous, Previous := wrapInt (conf.Previous - 20) },
              cache := cache1, printed := toPrint,
              asked := some (wrapInt (wrapInt (conf.Previous - 20) + 1)) } := by
  simp only [commandMapB, if_neg hprev, h]

/-- The result of `commandMapB` when `Previous` is zero. -/
theorem commandMapB_zero (web : String → Response) (mem : Int) (fuel : Nat) (now : Time)
    (next : Int) (cache : Cache) :
    commandMapB web mem fuel now { Next := next, Previous := 0 } cache
      = .ok { conf := { Next := next, Previous := 0 }, cache := cache,
              printed := "No previous\n", asked := none } := by
  simp [commandMapB]

/-! ## The paging commands: claim C11 -/

/-- C11: take a config whose `Previous` is an `int` and whose `Next` is `Previous + 20` and
not zero. When the `getNamesPage` call of `commandMap` returns no error, `commandMap` moves
the config on by one page. When afterwards the `getNamesPage` call of `commandMapB` returns
no error, on whatever cache, server and memory `commandMapB` then meets (the cache that
`commandMap` left, or that cache after sweeps of the reaper and other calls), `commandMapB`
passes the offset `Previous + 1` to `getNamesPage` and leaves the config equal to the one
before the `commandMap`. On a config whose `Previous` is zero `commandMapB` calls nothing
and returns the config and the cache it was given. -/
theorem C11_mapb_undoes_map (web1 web2 : String → Response) (mem1 mem2 : Int)
    (fuel1 fuel2 : Nat) (now1 now2 : Time) (conf : config)
    (cache cache1 cacheB cache2 : Cache) (s1 s2 : String)
    (hlo : minInt ≤ conf.Previous) (hhi : conf.Previous ≤ maxInt)
    (hnext : conf.Next = wrapInt (conf.Previous + 20)) (hne : conf.Next ≠ 0)
    (hmap : getNamesPage web1 mem1 fuel1 now1 (wrapInt (conf.Next + 1)) cache
      = .ok ((s1, none), cache1))
    (hmapb : getNamesPage web2 mem2 fuel2 now2 (wrapInt (wrapInt (conf.Next - 20) + 1)) cacheB
      = .ok ((s2, none), cache2)) :
    commandMap web1 mem1 fuel1 now1 conf cache
        = .ok { conf := { Next := wrapInt (conf.Next + 20), Previous := conf.Next },
                cache := cache1, printed := s1, asked := some (wrapInt (conf.Next + 1)) }
      ∧ commandMapB web2 mem2 fuel2 now2
            { Next := wrapInt (conf.Next + 20), Previous := conf.Next } cacheB
          = .ok { conf := conf, cache := cache2, printed := s2,
                  asked := some (wrapInt (conf.Previous + 1)) }
      ∧ (∀ (web0 : String → Response) (mem0 : Int) (fuel0 : Nat) (now0 : Time) (next : Int)
          (cache0 : Cache),
          commandMapB web0 mem0 fuel0 now0 { Next := next, Previous := 0 } cache0
            = .ok { conf := { Next := next, Previous := 0 }, cache := cache0,
                    printed := "No previous\n", asked := none }) := by
  have hback : wrapInt (conf.Next - 20) = conf.Previous := by
    rw [hnext]
    exact wrapInt_back conf.Previous hlo hhi
  refine ⟨commandMap_ok web1 mem1 fuel1 now1 conf cache cache1 s1 hmap, ?_,
    fun web0 mem0 fuel0 now0 next cache0 => commandMapB_zero web0 mem0 fuel0 now0 next cache0⟩
  have h := commandMapB_ok web2 mem2 fuel2 now2
    { Next := wrapInt (conf.Next + 20), Previous := conf.Next } cacheB cache2 s2 hne hmapb
  simp only [hback] at h
  exact h

/-- C11 on `abraWeb` with 8 GiB of memory, from the config after the first `map`
(`Next = 20`, `Previous = 0`): `map` at time 0 stores the page of offset 21 and gives
`Next = 40`, `Previous = 20`; the sweep of tick 6000 then deletes that entry; `mapb` at time
6005, on the swept cache, asks for offset 1, stores that page and gives `Next = 20`,
`Previous = 0` again. -/
theorem C11_mapb_undoes_map_witness :
    (20 : Int) = wrapInt (0 + 20) ∧ (20 : Int) ≠ 0
      ∧ getNamesPage abraWeb 8589934592 22 0 (wrapInt (20 + 1)) (NewCache 6000)
          = .ok ((abraPage, none), cacheWithPage (NewCache 6000) 0 21)
      ∧ ((cacheWithPage (NewCache 6000) 0 21).reapSweep 6000).data.lookup "page21-41" = none
      ∧ getNamesPage abraWeb 8589934592 22 6005 (wrapInt (wrapInt (20 - 20) + 1))
            ((cacheWithPage (NewCache 6000) 0 21).reapSweep 6000)
          = .ok ((abraPage, none),
              cacheWithPage ((cacheWithPage (NewCache 6000) 0 21).reapSweep 6000) 6005 1)
      ∧ commandMapB abraWeb 8589934592 22 6005 { Next := wrapInt (20 + 20), Previous := 20 }
            ((cacheWithPage (NewCache 6000) 0 21).reapSweep 6000)
          = .ok { conf := { Next := 20, Previous := 0 },
                  cache :=
                    cacheWithPage ((cacheWithPage (NewCache 6000) 0 21).reapSweep 6000) 6005 1,
                  printed := abraPage, asked := some (wrapInt (0 + 1)) } :=
  ⟨by decide, by decide, rfl, by decide, rfl,
    (C11_mapb_undoes_map abraWeb abraWeb 8589934592 8589934592 22 22 0 6005
      { Next := 20, Previous := 0 } (NewCache 6000)
      (cacheWithPage (NewCache 6000) 0 21)
      ((cacheWithPage (NewCache 6000) 0 21).reapSweep 6000)
      (cacheWithPage ((cacheWithPage (NewCache 6000) 0 21).reapSweep 6000) 6005 1)
      abraPage abraPage
      (by decide) (by decide) (by decide) (by decide) rfl rfl).2.1⟩

/-! ## Lemmas on the cached text -/

theorem length_utf8EncodeChar_pos (c : Char) : 1 ≤ (String.utf8EncodeChar c).length := by
  unfold String.utf8EncodeChar
  simp only
  split_ifs <;> simp

/-- A string has at most as many characters as UTF-8 bytes. -/
theorem length_le_flatMap (cs : List Char) :
    cs.length ≤ (cs.flatMap String.utf8EncodeChar).length := by
  induction cs with
  | nil => simp
  | cons c cs ih =>
    have := length_utf8EncodeChar_pos c
    simp only [List.flatMap_cons, List.length_cons, List.length_append]
    omega

/-- A string has at most as many characters as UTF-8 bytes. -/
theorem length_le_bytesOf (s : String) : s.length ≤ (bytesOf s).length :=
  length_le_flatMap s.data

theorem length_intercalate_go (sep : String) (l : List String) (acc : String) :
    acc.length + l.length * sep.length ≤ (String.intercalate.go acc sep l).length := by
  induction l generalizing acc with
  | nil => simp [String.intercalate.go]
  | cons a l ih =>
    have := ih (acc ++ sep ++ a)
    simp only [String.intercalate.go, String.length_append, List.length_cons] at this ⊢
    nlinarith

/-- The text printed for a byte slice is longer than the slice. -/
theorem length_Sprint (b : List UInt8) : b.length + 1 ≤ (Sprint b).length := by
  unfold Sprint
  cases b with
  | nil => decide
  | cons x xs =>
    have := length_intercalate_go " " (xs.map fun x => toString x.toNat) (toString x.toNat)
    simp only [String.length_append, List.map_cons, String.intercalate, List.length_cons,
      List.length_map] at this ⊢
    have h1 : " ".length = 1 := rfl
    have h2 : "[".length = 1 := rfl
    have h3 : "]".length = 1 := rfl
    rw [h1] at this
    rw [h2, h3]
    omega

/-- The text printed for the bytes of a string is never that string. -/
theorem Sprint_bytesOf_ne (s : String) : Sprint (bytesOf s) ≠ s := by
  intro h
  have h1 := length_Sprint (bytesOf s)
  have h2 := length_le_bytesOf s
  rw [h] at h1
  omega

/-- The call of `getNamesPage` that finds an entry for the page returns the printed bytes of
the entry and leaves the cache as it is. -/
theorem getNamesPage_hit (web : String → Response) (mem : Int) (fuel : Nat) (now : Time)
    (offset : Int) (cache : Cache) (e : cacheEntry)
    (hhit : cache.data.lookup
      ("page" ++ toString offset ++ "-" ++ toString (wrapInt (offset + 20))) = some e) :
    getNamesPage web mem fuel now offset cache = .ok ((Sprint e.val, none), cache) := by
  simp only [getNamesPage, Cache.Get, hhit]

/-- The call of `getNamesPage` that finds no entry for the page and returns no error stores
the bytes of the text it returns. -/
theorem getNamesPage_miss (web : String → Response) (mem : Int) (fuel : Nat) (now : Time)
    (offset : Int) (cache cache1 : Cache) (s : String)
    (hmiss : cache.data.lookup
      ("page" ++ toString offset ++ "-" ++ toString (wrapInt (offset + 20))) = none)
    (h : getNamesPage web mem fuel now offset cache = .ok ((s, none), cache1)) :
    cache1 = cache.Add now
      ("page" ++ toString offset ++ "-" ++ toString (wrapInt (offset + 20))) (bytesOf s) := by
  simp only [getNamesPage, Cache.Get, hmiss] at h
  split at h
  · cases h
  · cases h
  · cases h
    rfl

/-- A miss of `getNamesPage` followed, with no sweep in between, by a call for the same
offset: the second call returns the printed bytes of the text of the first, which is never
that text. -/
theorem getNamesPage_hit_after_miss (web web1 : String → Response) (mem mem1 : Int)
    (fuel fuel1 : Nat) (now now1 : Time) (offset : Int) (cache cache1 : Cache) (s : String)
    (hmiss : cache.data.lookup
      ("page" ++ toString offset ++ "-" ++ toString (wrapInt (offset + 20))) = none)
    (h : getNamesPage web mem fuel now offset cache = .ok ((s, none), cache1)) :
    getNamesPage web1 mem1 fuel1 now1 offset cache1
        = .ok ((Sprint (bytesOf s), none), cache1)
      ∧ Sprint (bytesOf s) ≠ s := by
  have hc := getNamesPage_miss web mem fuel now offset cache cache1 s hmiss h
  have hl : cache1.data.lookup
      ("page" ++ toString offset ++ "-" ++ toString (wrapInt (offset + 20)))
      = some { createdAt := now, val := bytesOf s } := by
    rw [hc, lookup_Add_self, hmiss]
    rfl
  exact ⟨getNamesPage_hit web1 mem1 fuel1 now1 offset cache1 _ hl, Sprint_bytesOf_ne s⟩

/-! ## The cached text: claim C12 -/

/-- C12 fails on the code. On `abraWeb` with 8 GiB of memory, `getNamesPage` for offset 1 on a new cache misses,
returns the twenty names, one per line, and stores their bytes; the next call for offset 1
hits that entry and returns the decimal values of the stored bytes between brackets, not
the text of the first call. The same happens to `getPokemonsInArea` for one location
name: `abra` and a line feed on the miss, the five byte values on the hit. -/
theorem C12_cache_hit_differs :
    getNamesPage abraWeb 8589934592 22 0 1 (NewCache 6000)
        = .ok ((abraPage, none), cacheWithPage (NewCache 6000) 0 1)
      ∧ getNamesPage abraWeb 8589934592 22 5 1 (cacheWithPage (NewCache 6000) 0 1)
          = .ok (("[97 10 97 10 97 10 97 10 97 10 97 10 97 10 97 10 97 10 97 10 97 10 97 10 97 10 97 10 97 10 97 10 97 10 97 10 97 10 97 10]", none), cacheWithPage (NewCache 6000) 0 1)
      ∧ "[97 10 97 10 97 10 97 10 97 10 97 10 97 10 97 10 97 10 97 10 97 10 97 10 97 10 97 10 97 10 97 10 97 10 97 10 97 10 97 10]" ≠ abraPage
      ∧ getPokemonsInArea abraWeb 0 "canalave-city-area" (NewCache 6000)
          = .ok (("abra\n", none),
              (NewCache 6000).Add 0 "pokemonsInArea_canalave-city-area" [97, 98, 114, 97, 10])
      ∧ getPokemonsInArea abraWeb 5 "canalave-city-area"
            ((NewCache 6000).Add 0 "pokemonsInArea_canalave-city-area" [97, 98, 114, 97, 10])
          = .ok (("[97 98 114 97 10]", none),
              (NewCache 6000).Add 0 "pokemonsInArea_canalave-city-area" [97, 98, 114, 97, 10])
      ∧ "[97 98 114 97 10]" ≠ "abra\n" :=
  ⟨rfl, rfl, by decide, rfl, rfl, by decide⟩

end Pokedexcli
